import Mathlib

/-!
# CPP-Defer: the `RunOnDeath` guard, `defer`, `DEFER` and the demo program

A state-passing embedding of `src/defer.h` and `src/test.cpp`.

* A callable of type `std::function<void()>` is `Option α`: `none` is the empty
  function object, `some a` holds the target `a`.  What a target does when it is
  called is given by `sem : α → σ → Outcome ε Unit σ` on the program state `σ`.
* Every call made through `std::function::operator()` is recorded in
  `World.calls`, so "invoked exactly once" is a statement about that record.
* C++ semantics used by the code and not written in it are modelled explicitly:
  destruction of automatic objects in reverse order of construction
  (`leaveScope`), the implicit `noexcept` of a destructor (`noexcept`), and the
  decay-copy of the arguments of `std::bind` (`stdBind`).
-/

namespace Defer

/-! ## Outcomes and the observable world -/

/-- How the execution of a piece of code ends: it completes with a result, it
leaves with an exception in flight, or `std::terminate` ended the program. The
state reached is kept in each case. -/
inductive Outcome (ε ρ σ : Type) where
  | normal (r : ρ) (s : σ)
  | thrown (e : ε) (s : σ)
  | terminated (s : σ)
  deriving DecidableEq, Repr

/-- State in which the execution ended. -/
def Outcome.st {ε ρ σ : Type} : Outcome ε ρ σ → σ
  | .normal _ s => s
  | .thrown _ s => s
  | .terminated s => s

/-- Replace the state of an outcome, keeping the way it ended. -/
def Outcome.mapSt {ε ρ σ τ : Type} (f : σ → τ) : Outcome ε ρ σ → Outcome ε ρ τ
  | .normal r s => .normal r (f s)
  | .thrown e s => .thrown e (f s)
  | .terminated s => .terminated (f s)

/-- Program state together with the record of the calls made through a
`std::function<void()>`, oldest first. -/
structure World (α σ : Type) where
  state : σ
  calls : List α
  deriving DecidableEq, Repr

/-- The call `proc()` on a non-empty `std::function<void()>` holding target `a`:
the call is recorded and the target runs on the program state. -/
def invoke {α ε σ : Type} (sem : α → σ → Outcome ε Unit σ) (a : α) (w : World α σ) :
    Outcome ε Unit (World α σ) :=
  (sem a w.state).mapSt (fun s => { state := s, calls := w.calls ++ [a] })

/-- Exception specification `noexcept(true)`: an exception that leaves the
function body calls `std::terminate`. No exception type remains (`Empty`). -/
def noexcept {ε ρ σ : Type} : Outcome ε ρ σ → Outcome Empty ρ σ
  | .normal r s => .normal r s
  | .thrown _ s => .terminated s
  | .terminated s => .terminated s

/-! ## `class RunOnDeath` (defer.h, lines 83-105) -/

/-- The class `RunOnDeath`: its only member is `std::function<void()> proc`. -/
structure RunOnDeath (α : Type) where
  proc : Option α
  deriving DecidableEq, Repr

/-- Constructor `RunOnDeath(std::function<void()>&& f): proc(f) {}` (line 85).
Inside the constructor `f` is a named reference, so `proc(f)` copies it: the guard holds a
copy of the caller's function object, which itself is left as it was. -/
def RunOnDeath.ctor {α : Type} (f : Option α) : RunOnDeath α :=
  { proc := f }

/-- Move constructor `RunOnDeath(RunOnDeath&& src): proc(src.proc)
{ src.proc = nullptr; }` (lines 99-102). Returns the new guard and the source as it is left. -/
def RunOnDeath.moveCtor {α : Type} (src : RunOnDeath α) : RunOnDeath α × RunOnDeath α :=
  ({ proc := src.proc }, { src with proc := none })

/-- Body of `~RunOnDeath()` (lines 87-91): `if ( proc ) proc();`. The body
assigns no member, so the guard is returned as it was, next to the outcome. -/
def RunOnDeath.dtorBody {α ε σ : Type} (sem : α → σ → Outcome ε Unit σ)
    (g : RunOnDeath α) (w : World α σ) : RunOnDeath α × Outcome ε Unit (World α σ) :=
  match g.proc with
  | some a => (g, invoke sem a w)
  | none => (g, .normal () w)

/-- A call of `~RunOnDeath()`. The destructor is declared without an exception
specification and its member `proc` has a non-throwing destructor, so since
C++11 it is implicitly `noexcept(true)` ([class.dtor], [except.spec]): an
exception leaving the body ends the program through `std::terminate`. After
the body the member `proc` is destroyed and the lifetime of the guard has
ended: no guard is left, only the outcome. -/
def RunOnDeath.dtor {α ε σ : Type} (sem : α → σ → Outcome ε Unit σ)
    (g : RunOnDeath α) (w : World α σ) : Outcome Empty Unit (World α σ) :=
  noexcept (g.dtorBody sem w).2

/-! ## Leaving a scope -/

/-- Destroy the given guards one after the other, in the order of the list; a
destructor that ends in `std::terminate` ends the program there. -/
def destroyAll {α ε σ : Type} (sem : α → σ → Outcome ε Unit σ) :
    List (RunOnDeath α) → World α σ → Outcome Empty Unit (World α σ)
  | [], w => .normal () w
  | g :: gs, w =>
    match g.dtor sem w with
    | .normal _ w1 => destroyAll sem gs w1
    | .thrown e _ => e.elim
    | .terminated w1 => .terminated w1

/-- Leaving a block whose automatic `RunOnDeath` objects are `locals`, listed in
the order they were constructed: they are destroyed in the reverse order of
their construction ([stmt.jump], [except.ctor]). -/
def leaveScope {α ε σ : Type} (sem : α → σ → Outcome ε Unit σ)
    (locals : List (RunOnDeath α)) (w : World α σ) : Outcome Empty Unit (World α σ) :=
  destroyAll sem locals.reverse w

/-- A block body that ended as `o` leaves its block: on `return` and on an
exception in flight (stack unwinding towards a handler) the locals are
destroyed and the body's result or exception is kept; a terminated program runs
nothing more. -/
def leaving {α ε ρ σ : Type} (sem : α → σ → Outcome ε Unit σ)
    (locals : List (RunOnDeath α)) : Outcome ε ρ (World α σ) → Outcome ε ρ (World α σ)
  | .normal r w =>
    match leaveScope sem locals w with
    | .normal _ w1 => .normal r w1
    | .thrown e _ => e.elim
    | .terminated w1 => .terminated w1
  | .thrown e w =>
    match leaveScope sem locals w with
    | .normal _ w1 => .thrown e w1
    | .thrown e1 _ => e1.elim
    | .terminated w1 => .terminated w1
  | .terminated w => .terminated w

/-- Public operations on `RunOnDeath` objects: construction from a
`std::function<void()>`, move construction from object number `src`, and
destruction of object number `obj`. Copying and assignment are deleted
(lines 94-96). -/
inductive Op (α : Type) where
  | construct (f : Option α)
  | moveConstruct (src : Nat)
  | destroy (obj : Nat)
  deriving DecidableEq, Repr

/-- The world, every `RunOnDeath` object constructed so far in order of
construction (`none` once its lifetime has ended), and whether
`std::terminate` has been called. -/
structure Machine (α σ : Type) where
  world : World α σ
  objs : List (Option (RunOnDeath α))
  halted : Bool
  deriving DecidableEq, Repr

/-- Start of a program: no guard exists, nothing has been called. -/
def Machine.init {α σ : Type} (s : σ) : Machine α σ :=
  { world := { state := s, calls := [] }, objs := [], halted := false }

/-- One operation. An operation naming an object that does not exist or is no
longer alive is not a step of a well-formed program and changes nothing; after
`std::terminate` nothing runs. -/
def Machine.step {α ε σ : Type} (sem : α → σ → Outcome ε Unit σ)
    (m : Machine α σ) (op : Op α) : Machine α σ :=
  if m.halted then m else
  match op with
  | .construct f => { m with objs := m.objs ++ [some (RunOnDeath.ctor f)] }
  | .moveConstruct i =>
    match m.objs[i]? with
    | some (some src) =>
      { m with objs := m.objs.set i (some src.moveCtor.2) ++ [some src.moveCtor.1] }
    | _ => m
  | .destroy i =>
    match m.objs[i]? with
    | some (some g) =>
      match g.dtor sem m.world with
      | .normal _ w => { world := w, objs := m.objs.set i none, halted := false }
      | .thrown e _ => e.elim
      | .terminated w => { world := w, objs := m.objs.set i none, halted := true }
    | _ => m

/-- A sequence of operations, first to last. -/
def Machine.run {α ε σ : Type} (sem : α → σ → Outcome ε Unit σ)
    (m : Machine α σ) (ops : List (Op α)) : Machine α σ :=
  ops.foldl (Machine.step sem) m

/-- Actions held by the live guards, in order of construction of the guards. -/
def Machine.liveProcs {α σ : Type} (m : Machine α σ) : List α :=
  m.objs.filterMap (fun o => o.bind RunOnDeath.proc)

/-- Targets handed to the constructor by a sequence of operations. -/
def constructed {α : Type} (ops : List (Op α)) : List α :=
  ops.filterMap (fun op => match op with
    | .construct f => f
    | _ => none)

/-- The operations `ops` with every callable handed to the constructor named
by the number of the operation that hands it over, counted from `k`. The
constructor copies the caller's function object into the new guard's `proc`
(`proc(f)`), so every constructor call gives its guard an action of its own,
the copy made by that call, also when two calls are given equal callables. -/
def copies {α : Type} (k : Nat) : List (Op α) → List (Op (Nat × α))
  | [] => []
  | .construct f :: rest => .construct (f.map (fun a => (k, a))) :: copies (k + 1) rest
  | .moveConstruct i :: rest => .moveConstruct i :: copies (k + 1) rest
  | .destroy i :: rest => .destroy i :: copies (k + 1) rest

/-- Forgetting the numbers of the copies: the machine as it is when every
action is known by its callable alone. -/
def Machine.forget {α σ : Type} (m : Machine (Nat × α) σ) : Machine α σ :=
  { world := { state := m.world.state, calls := m.world.calls.map Prod.snd },
    objs := m.objs.map (Option.map (fun g => { proc := g.proc.map Prod.snd })),
    halted := m.halted }

/-! ## `std::bind` and `defer` (defer.h, lines 117-120) -/

/-- An `int` argument expression at a call of `defer`: a named variable of the
program state (an lvalue, given by how it is read from the state), a temporary
value, or `std::ref(x)`. -/
inductive Arg (σ : Type) where
  | lvalue (x : σ → Int)
  | rvalue (v : Int)
  | ref (x : σ → Int)

/-- What a `std::bind` call wrapper stores for one argument: an object of the
decayed type constructed from the argument, that is a copy of the value, or
for `std::ref(x)` the `std::reference_wrapper` (which still refers to `x`). -/
inductive Bound (σ : Type) where
  | copy (v : Int)
  | refw (x : σ → Int)

/-- Storing one argument in the call wrapper, in the state `s` of the call of
`std::bind`: `std::forward<TypePack>(bindArg)` hands an lvalue on as an lvalue
and `std::bind` copy-constructs its stored `int` from it ([func.bind.bind]). -/
def Arg.decay {σ : Type} (s : σ) : Arg σ → Bound σ
  | .lvalue x => .copy (x s)
  | .rvalue v => .copy v
  | .ref x => .refw x

/-- The value a stored argument passes to the wrapped callable when the wrapper
is called in state `s`. -/
def Bound.value {σ : Type} (s : σ) : Bound σ → Int
  | .copy v => v
  | .refw x => x s

/-- The call wrapper returned by `std::bind(f, args...)`: a copy of `f` (what
`f` does when called with the argument values in a state) and the stored
arguments. -/
structure BindObj (ε σ : Type) where
  f : List Int → σ → Outcome ε Unit σ
  bound : List (Bound σ)

/-- The function `std::bind(f, args...)` evaluated in state `s`. -/
def stdBind {ε σ : Type} (f : List Int → σ → Outcome ε Unit σ) (args : List (Arg σ))
    (s : σ) : BindObj ε σ :=
  { f := f, bound := args.map (Arg.decay s) }

/-- Calling the wrapper with no arguments in state `s`: `f` is called with the
stored arguments. -/
def BindObj.call {ε σ : Type} (b : BindObj ε σ) (s : σ) : Outcome ε Unit σ :=
  b.f (b.bound.map (Bound.value s)) s

/-- The value the claim's "bound call" passes to the callable for one argument
of `defer`, said without the call wrapper: an argument passed by value (a
named variable or a temporary) gives the value it had in the state `s` of the
call of `defer`; `std::ref(x)` gives the value `x` has in the state `s1` in
which the call is made. -/
def Arg.passed {σ : Type} (s s1 : σ) : Arg σ → Int
  | .lvalue x => x s
  | .rvalue v => v
  | .ref x => x s1

/-- The factory `defer(f, args...)` called in state `s` (line 119):
`return RunOnDeath(std::bind(std::forward<TypePack>(bindArg)...));` the call
wrapper is converted to a `std::function<void()>` and handed to the
constructor. -/
def defer {ε σ : Type} (f : List Int → σ → Outcome ε Unit σ) (args : List (Arg σ))
    (s : σ) : RunOnDeath (BindObj ε σ) :=
  RunOnDeath.ctor (some (stdBind f args s))

/-- The closure object of `[&] () { cmd }`: it takes no argument and holds
references to the variables of the enclosing function, so its body `cmd` runs
on the program state of the moment it is called. -/
def lambdaRef {ε σ : Type} (cmd : σ → Outcome ε Unit σ) : List Int → σ → Outcome ε Unit σ :=
  fun _ s => cmd s

/-- The statement `DEFER(cmd)`, which expands (lines 131, 144) to
`auto dummy_LINE = defer( [&] () { cmd });`, executed in state `s`. -/
def DEFER {ε σ : Type} (cmd : σ → Outcome ε Unit σ) (s : σ) : RunOnDeath (BindObj ε σ) :=
  defer (lambdaRef cmd) [] s

/-- Receiving the guard returned by `defer` in a named guard when `moves` of
the copy elisions allowed for the returned temporary are not performed: each
time the next object is move-constructed from the temporary and the temporary
is destroyed. Returns the receiving guard and the outcome of the statement. -/
def receive {α ε σ : Type} (sem : α → σ → Outcome ε Unit σ) :
    Nat → RunOnDeath α → World α σ → RunOnDeath α × Outcome Empty Unit (World α σ)
  | 0, g, w => (g, .normal () w)
  | n + 1, tmp, w =>
    match tmp.moveCtor.2.dtor sem w with
    | .normal _ w1 => receive sem n tmp.moveCtor.1 w1
    | .thrown e _ => e.elim
    | .terminated w1 => (tmp.moveCtor.1, .terminated w1)

/-! ## The demo program (test.cpp)

The streams `cout` and `HelperObject::log` are kept as the list of the pieces
written to them, oldest first (`endl` is the piece "\n"); the text of a stream
is the concatenation of its pieces. The only exception type thrown is `string`.
-/

/-- The class `HelperObject` (test.cpp, lines 8-18): its member `stringstream log`. -/
structure HelperObject where
  log : List String
  deriving DecidableEq, Repr

/-- State of the demo program: what was written to `cout`, and the object the
local pointer `helper` of `SquareSmallNum` points to (`none` when no such
object is alive: before `new`, after `delete`). -/
structure TestState where
  cout : List String
  helper : Option HelperObject
  deriving DecidableEq, Repr

/-- The world of the demo program. -/
abbrev TestWorld := World (BindObj String TestState) TestState

/-- Member `void Print(string s) { cout << s << endl;}` (line 10). -/
def HelperObject.Print (s : String) (cout : List String) : List String :=
  cout ++ [s, "\n"]

/-- Member `operator<<` (lines 11-14): `log << "   " << rhs << endl;`. -/
def HelperObject.shl (h : HelperObject) (rhs : String) : HelperObject :=
  { log := h.log ++ ["   ", rhs, "\n"] }

/-- Member `void DumpLog() { cout << log.str() << endl;}` (line 15). -/
def HelperObject.DumpLog (h : HelperObject) (cout : List String) : List String :=
  cout ++ h.log ++ ["\n"]

/-- Value of an `int` expression whose mathematical value is `x`: `x` itself
when it fits in 32 bits, and the two's complement wrap-around modulo `2 ^ 32`
otherwise (signed overflow is undefined in C++; the wrap-around is what the
compiled program shows). -/
def wrapInt (x : Int) : Int :=
  (x + 2 ^ 31) % 2 ^ 32 - 2 ^ 31

/-- The function `sqr` (lines 20-25): `input*input` is an `int` product, which
overflows for `input ≤ -46341`. In `SquareSmallNum` the function is reached
only with `0 ≤ input`, where the product is at most 998001. -/
def sqr (input : Int) : Except String Int :=
  if input ≥ 1000 then
    .error "Input is too large!"
  else
    .ok (wrapInt (input * input))

/-- The statement `HelperObject *helper  = new HelperObject();` (line 34). -/
def newHelper (w : TestWorld) : TestWorld :=
  { w with state := { w.state with helper := some { log := [] } } }

/-- The statement `*helper << rhs;` in the body of `SquareSmallNum`. -/
def helperShl (rhs : String) (w : TestWorld) : TestWorld :=
  { w with state := { w.state with helper := w.state.helper.map (fun h => h.shl rhs) } }

/-- The statements `cout << piece1 << piece2 ...;` of `main`. -/
def coutShl (pieces : List String) (w : TestWorld) : TestWorld :=
  { w with state := { w.state with cout := w.state.cout ++ pieces } }

/-- Body of the clean up lambda of `SquareSmallNum` (lines 37-41). It reads
`helper` through the reference captured by `[&]`. Calling it when `helper`
points to no live object is undefined behaviour, kept apart as termination. -/
def cleanup (s : TestState) : Outcome String Unit TestState :=
  match s.helper with
  | none => .terminated s
  | some h =>
    -- helper->Print("Performing final clean up");
    let c := HelperObject.Print "Performing final clean up" s.cout
    -- cout << "Log follows: " << endl;
    let c := c ++ ["Log follows: ", "\n"]
    -- helper->DumpLog();
    let c := h.DumpLog c
    -- delete  helper;   cout << "All done..." << endl << endl;
    .normal () { cout := c ++ ["All done...", "\n", "\n"], helper := none }

/-- The function `int SquareSmallNum ( int input )` (lines 32-55), called where a
handler for `string` exists (as in `main`), so that the exception of `sqr`
unwinds the stack. -/
def SquareSmallNum (input : Int) (w : TestWorld) : Outcome String Int TestWorld :=
  let w := newHelper w
  let dummy_35 := DEFER cleanup w.state
  let w := helperShl "Checking for a positive input" w
  if input < 0 then
    let w := helperShl "Inavlid input, exiting" w
    leaving BindObj.call [dummy_35] (.normal (-1) w)
  else
    let w := helperShl "Calling some library function that might throw" w
    match sqr input with
    | .error e => leaving BindObj.call [dummy_35] (.thrown e w)
    | .ok ret =>
      let w := helperShl "Got response, returning..." w
      leaving BindObj.call [dummy_35] (.normal ret w)

/-- The `try` block of `main` (lines 59-66). -/
def mainTry (w : TestWorld) : Outcome String Unit TestWorld :=
  match SquareSmallNum 100 (coutShl ["100 (normal return)    :", "\n"] w) with
  | .thrown e w => .thrown e w
  | .terminated w => .terminated w
  | .normal _ w =>
    match SquareSmallNum (-1) (coutShl ["-1: (early return)     :", "\n"] w) with
    | .thrown e w => .thrown e w
    | .terminated w => .terminated w
    | .normal _ w =>
      match SquareSmallNum 1000 (coutShl ["1000 (throws an error) :", "\n"] w) with
      | .thrown e w => .thrown e w
      | .terminated w => .terminated w
      | .normal _ w => .normal () w

/-- The function `main` (lines 57-70): the handler `catch( string &s)` prints the
error, then `return 0;`. -/
def main (w : TestWorld) : Outcome String Int TestWorld :=
  match mainTry w with
  | .normal _ w => .normal 0 w
  | .thrown s w => .normal 0 (coutShl ["Got an error: ", s, "\n"] w)
  | .terminated w => .terminated w

/-- The pieces the clean up writes to `cout` when the helper's log is `log`. -/
def cleanupOutput (log : List String) : List String :=
  ["Performing final clean up", "\n", "Log follows: ", "\n"] ++ log ++ ["\n"] ++
    ["All done...", "\n", "\n"]

/-- The lines `SquareSmallNum` appends to the helper's log after the `DEFER`
statement, by the way the function is left. -/
def bodyLog (input : Int) : List String :=
  if input < 0 then
    ["   ", "Checking for a positive input", "\n", "   ", "Inavlid input, exiting", "\n"]
  else if input ≥ 1000 then
    ["   ", "Checking for a positive input", "\n",
     "   ", "Calling some library function that might throw", "\n"]
  else
    ["   ", "Checking for a positive input", "\n",
     "   ", "Calling some library function that might throw", "\n",
     "   ", "Got response, returning...", "\n"]

/-- The call wrapper held by the guard of `SquareSmallNum`: `std::bind` of the
clean up closure with no argument. -/
def cleanupCall : BindObj String TestState :=
  { f := lambdaRef cleanup, bound := [] }

/-- World in which `SquareSmallNum input` leaves its body: the helper is alive
and holds every log line of the statements executed. -/
def bodyWorld (input : Int) (w : TestWorld) : TestWorld :=
  { w with state := { w.state with helper := some { log := bodyLog input } } }

/-- World after the clean up was called once in `bodyWorld`. -/
def finalWorld (input : Int) (w : TestWorld) : TestWorld :=
  { state := { cout := w.state.cout ++ cleanupOutput (bodyLog input), helper := none },
    calls := w.calls ++ [cleanupCall] }

/-! ## Concrete actions used in examples -/

/-- An action semantics in which every action throws its own number. -/
def semThrow (a : Nat) (s : Nat) : Outcome Nat Unit Nat :=
  .thrown a s

/-- Program state of a small example: an `int` variable `x` and the record of
the argument lists the function `record` was called with. -/
structure VarState where
  x : Int
  seen : List (List Int)
  deriving DecidableEq, Repr

/-- A function that notes the arguments it is called with. -/
def record (args : List Int) (s : VarState) : Outcome Nat Unit VarState :=
  .normal () { s with seen := s.seen ++ [args] }

section Core

variable {α ε σ : Type}

theorem dtorBody_fst (sem : α → σ → Outcome ε Unit σ) (g : RunOnDeath α) (w : World α σ) :
    (g.dtorBody sem w).1 = g := by
  unfold RunOnDeath.dtorBody
  cases g.proc <;> rfl

theorem invoke_calls (sem : α → σ → Outcome ε Unit σ) (a : α) (w : World α σ) :
    (invoke sem a w).st.calls = w.calls ++ [a] := by
  unfold invoke
  cases sem a w.state <;> rfl

theorem invoke_state (sem : α → σ → Outcome ε Unit σ) (a : α) (w : World α σ) :
    (invoke sem a w).st.state = (sem a w.state).st := by
  unfold invoke
  cases sem a w.state <;> rfl

theorem noexcept_st {ρ τ : Type} (o : Outcome ε ρ τ) : (noexcept o).st = o.st := by
  cases o <;> rfl

theorem dtor_empty (sem : α → σ → Outcome ε Unit σ) (w : World α σ) :
    RunOnDeath.dtor sem { proc := none } w = .normal () w := rfl

theorem dtor_armed (sem : α → σ → Outcome ε Unit σ) (a : α) (w : World α σ) :
    RunOnDeath.dtor sem { proc := some a } w = noexcept (invoke sem a w) := rfl

/-- C1: running the destructor of a guard whose `proc` holds an action `a`
makes exactly one call, of `a` (the record of calls grows by `a` alone and the
program state is the one a single run of `a` leaves); running the destructor
of a guard whose `proc` is empty calls nothing and leaves the world as it
was. -/
theorem dtor_invokes_stored_action_once (sem : α → σ → Outcome ε Unit σ)
    (g : RunOnDeath α) (w : World α σ) :
    match g.proc with
    | some a =>
      (g.dtorBody sem w).2 = invoke sem a w ∧
      (g.dtor sem w).st.calls = w.calls ++ [a] ∧
      (g.dtor sem w).st.state = (sem a w.state).st
    | none => (g.dtorBody sem w).2 = .normal () w ∧ g.dtor sem w = .normal () w := by
  obtain ⟨p⟩ := g
  cases p with
  | none => exact ⟨rfl, rfl⟩
  | some a =>
    refine ⟨rfl, ?_, ?_⟩
    · rw [dtor_armed, noexcept_st, invoke_calls]
    · rw [dtor_armed, noexcept_st, invoke_state]

/-- C2: move-constructing `B` from `A` gives `B` the action `A` held and leaves
`A` empty; the move construction changes nothing in the world (no call is
made); destroying `A` afterwards calls nothing, and destroying `B` does what
destroying the original `A` would have done: the original action called once
when there was one. -/
theorem moveCtor_transfers_action (sem : α → σ → Outcome ε Unit σ)
    (A : RunOnDeath α) (w : World α σ) (m : Machine α σ) (i : Nat) :
    A.moveCtor.1.proc = A.proc ∧
    A.moveCtor.2.proc = none ∧
    (Machine.step sem m (.moveConstruct i)).world = m.world ∧
    A.moveCtor.2.dtor sem w = .normal () w ∧
    A.moveCtor.1.dtor sem w = A.dtor sem w ∧
    (A.moveCtor.1.dtor sem w).st.calls = w.calls ++ A.proc.toList := by
  refine ⟨rfl, rfl, ?_, rfl, rfl, ?_⟩
  · simp only [Machine.step]
    split
    · rfl
    · split <;> rfl
  · obtain ⟨p⟩ := A
    cases p with
    | none => simp [RunOnDeath.moveCtor, dtor_empty, Outcome.st]
    | some a =>
      simp only [RunOnDeath.moveCtor, dtor_armed, noexcept_st, invoke_calls, Option.toList]

/-- C5 (as stated, refuted): a guard whose action throws `3` is destroyed at a
normal scope exit; called inline the action leaves with exception `3`, but the
scope exit ends in `std::terminate`, and no exception reaches the surrounding
code. -/
theorem scope_exit_does_not_propagate :
    invoke semThrow 3 { state := 0, calls := [] }
      = .thrown 3 { state := 0, calls := [3] } ∧
    leaving semThrow [{ proc := some 3 }] (.normal () { state := 0, calls := [] })
      = .terminated { state := 0, calls := [3] } ∧
    leaving semThrow [{ proc := some 3 }] (.normal () { state := 0, calls := [] })
      ≠ invoke semThrow 3 { state := 0, calls := [] } := by
  decide

/-- C5 (amended): when the action of an armed guard throws `e`, the body of the
destructor neither catches nor replaces it (the exception leaves the body as
the inline call would raise it, after the one call), and because the
destructor is `noexcept` the scope exit ends in `std::terminate` in the state
the action left; the surrounding code observes no exception. -/
theorem throwing_action_terminates {ρ : Type} (sem : α → σ → Outcome ε Unit σ)
    (a : α) (w : World α σ) (e : ε) (s : σ) (r : ρ)
    (h : sem a w.state = .thrown e s) :
    (RunOnDeath.dtorBody sem { proc := some a } w).2 = invoke sem a w ∧
    invoke sem a w = .thrown e { state := s, calls := w.calls ++ [a] } ∧
    leaving sem [{ proc := some a }] (.normal r w)
      = .terminated { state := s, calls := w.calls ++ [a] } := by
  have hi : invoke sem a w = .thrown e { state := s, calls := w.calls ++ [a] } := by
    simp [invoke, h, Outcome.mapSt]
  refine ⟨rfl, hi, ?_⟩
  simp [leaving, leaveScope, destroyAll, dtor_armed, hi, noexcept]

/-- Instance of the amended C5 for the action that throws `3`. -/
theorem throwing_action_terminates_witness :
    semThrow 3 (World.state { state := 0, calls := ([] : List Nat) }) = .thrown 3 0 ∧
    leaving semThrow [{ proc := some 3 }] (.normal () { state := 0, calls := [] })
      = .terminated { state := 0, calls := [] ++ [3] } :=
  ⟨rfl, (throwing_action_terminates semThrow 3 { state := 0, calls := [] } 3 0 () rfl).2.2⟩

end Core

section Binding

variable {ε σ : Type}

theorem bind_ref_reads_live (f : List Int → σ → Outcome ε Unit σ) (x : σ → Int) (s0 s : σ) :
    (stdBind f [.ref x] s0).call s = f [x s] s := rfl

/-- C6 (as stated, refuted): `x` is 1 when `defer(record, x)` is called and is
assigned 2 before the scope ends; at the end of the scope `record` is called
with 1, the value `x` had at the call of `defer`, not with 2. -/
theorem defer_lvalue_snapshot :
    (leaving BindObj.call [defer record [.lvalue VarState.x] { x := 1, seen := [] }]
        (.normal () { state := { x := 2, seen := [] }, calls := [] })).st.state
      = { x := 2, seen := [[1]] } ∧
    (leaving BindObj.call [defer record [.lvalue VarState.x] { x := 1, seen := [] }]
        (.normal () { state := { x := 2, seen := [] }, calls := [] })).st.state
      ≠ { x := 2, seen := [[2]] } := by
  decide

/-- C6 (amended): for every callable `f` and variable `x` passed as a plain
named variable to `defer(f, x)`, the guard's action holds a copy of `x` made
when `defer` was called: at the end of the scope `f` is called with the value
`x` had at the call of `defer` (in the state of the end of the scope),
whatever was assigned to `x` in between. -/
theorem defer_lvalue_is_copied (f : List Int → σ → Outcome ε Unit σ) (x : σ → Int)
    (s0 : σ) (w : World (BindObj ε σ) σ) :
    (defer f [.lvalue x] s0).proc = some { f := f, bound := [.copy (x s0)] } ∧
    (BindObj.call { f := f, bound := [.copy (x s0)] } w.state) = f [x s0] w.state ∧
    ((defer f [.lvalue x] s0).dtorBody BindObj.call w).2
      = (f [x s0] w.state).mapSt
          (fun s => { state := s, calls := w.calls ++ [{ f := f, bound := [.copy (x s0)] }] }) :=
  ⟨rfl, rfl, rfl⟩

theorem receive_eq (α : Type) (sem : α → σ → Outcome ε Unit σ) (n : Nat) (g : RunOnDeath α)
    (w : World α σ) : receive sem n g w = (g, .normal () w) := by
  induction n generalizing g with
  | zero => rfl
  | succ n ih =>
    have h : g.moveCtor.2.dtor sem w = .normal () w := rfl
    simp only [receive, h]
    exact ih g.moveCtor.1

theorem passed_eq_value (s s1 : σ) (args : List (Arg σ)) :
    (args.map (Arg.decay s)).map (Bound.value s1) = args.map (Arg.passed s s1) := by
  rw [List.map_map]
  apply List.map_congr_left
  intro a _
  cases a <;> rfl

/-- C9: a call of `defer` makes no call of the bound callable (constructing the
guard leaves the world as it was); receiving the returned guard through any
number of move constructions, each followed by the destruction of the
moved-from temporary, gives the same receiving guard and the same unchanged
world as materializing it directly; and destroying the receiving guard makes
exactly one call, the bound call: `f` is called once with the bound argument
values, in the state of that moment, and the destruction ends as that call
ends (under the destructor's `noexcept`). -/
theorem defer_elided_or_moved (f : List Int → σ → Outcome ε Unit σ) (args : List (Arg σ))
    (s : σ) (n : Nat) (w w1 : World (BindObj ε σ) σ) (m : Machine (BindObj ε σ) σ) :
    (Machine.step BindObj.call m (.construct (some (stdBind f args s)))).world = m.world ∧
    receive BindObj.call n (defer f args s) w = receive BindObj.call 0 (defer f args s) w ∧
    receive BindObj.call n (defer f args s) w = (defer f args s, .normal () w) ∧
    (receive BindObj.call n (defer f args s) w).1.dtor BindObj.call w1
      = noexcept ((f (args.map (Arg.passed s w1.state)) w1.state).mapSt
          (fun t => { state := t, calls := w1.calls ++ [stdBind f args s] })) ∧
    ((receive BindObj.call n (defer f args s) w).1.dtor BindObj.call w1).st.state
      = (f (args.map (Arg.passed s w1.state)) w1.state).st ∧
    ((receive BindObj.call n (defer f args s) w).1.dtor BindObj.call w1).st.calls
      = w1.calls ++ [stdBind f args s] := by
  have hcall : BindObj.call (stdBind f args s) w1.state
      = f (args.map (Arg.passed s w1.state)) w1.state := by
    simp only [BindObj.call, stdBind, passed_eq_value]
  have hd : (receive BindObj.call n (defer f args s) w).1.dtor BindObj.call w1
      = noexcept (invoke BindObj.call (stdBind f args s) w1) := by
    rw [receive_eq]
    rfl
  refine ⟨?_, ?_, receive_eq _ _ n _ w, ?_, ?_, ?_⟩
  · simp only [Machine.step]
    split <;> rfl
  · rw [receive_eq, receive_eq]
  · rw [hd, invoke, hcall]
  · rw [hd, noexcept_st, invoke_state, hcall]
  · rw [hd, noexcept_st, invoke_calls]

end Binding

section Demo

theorem invoke_cleanup_bodyWorld (input : Int) (w : TestWorld) :
    invoke BindObj.call cleanupCall (bodyWorld input w) = .normal () (finalWorld input w) := by
  simp [invoke, BindObj.call, cleanupCall, lambdaRef, cleanup, bodyWorld, finalWorld,
    Outcome.mapSt, HelperObject.Print, HelperObject.DumpLog, cleanupOutput]

theorem wrapInt_sq (input : Int) (h0 : 0 ≤ input) (h1 : input < 1000) :
    wrapInt (input * input) = input * input := by
  have h2 : input ≤ 999 := by omega
  have h3 : input * input ≤ 999 * 999 := Int.mul_le_mul h2 h2 h0 (by omega)
  have h4 : 0 ≤ input * input := Int.mul_nonneg h0 h0
  unfold wrapInt
  omega

theorem SquareSmallNum_eq (input : Int) (w : TestWorld) :
    SquareSmallNum input w =
      if input < 0 then .normal (-1) (finalWorld input w)
      else if input ≥ 1000 then .thrown "Input is too large!" (finalWorld input w)
      else .normal (input * input) (finalWorld input w) := by
  by_cases h0 : input < 0
  · have h1 : ¬ input ≥ 1000 := by omega
    simp [SquareSmallNum, h0, leaving, leaveScope, destroyAll, DEFER, defer, RunOnDeath.ctor,
      stdBind, dtor_armed, noexcept, invoke, BindObj.call, lambdaRef, cleanup, newHelper,
      helperShl, HelperObject.shl, HelperObject.Print, HelperObject.DumpLog, Outcome.mapSt,
      finalWorld, cleanupOutput, bodyLog, cleanupCall]
  · by_cases h1 : input ≥ 1000
    · have h2 : (1000 : Int) ≤ input := h1
      simp [SquareSmallNum, h0, h2, sqr, leaving, leaveScope, destroyAll, DEFER, defer,
        RunOnDeath.ctor, stdBind, dtor_armed, noexcept, invoke, BindObj.call, lambdaRef,
        cleanup, newHelper, helperShl, HelperObject.shl, HelperObject.Print,
        HelperObject.DumpLog, Outcome.mapSt, finalWorld, cleanupOutput, bodyLog, cleanupCall]
    · have h2 : ¬ (1000 : Int) ≤ input := h1
      have hw : wrapInt (input * input) = input * input :=
        wrapInt_sq input (by omega) (by omega)
      simp [SquareSmallNum, h0, h2, hw, sqr, leaving, leaveScope, destroyAll, DEFER, defer,
        RunOnDeath.ctor, stdBind, dtor_armed, noexcept, invoke, BindObj.call, lambdaRef,
        cleanup, newHelper, helperShl, HelperObject.shl, HelperObject.Print,
        HelperObject.DumpLog, Outcome.mapSt, finalWorld, cleanupOutput, bodyLog, cleanupCall]

theorem SquareSmallNum_st (input : Int) (w : TestWorld) :
    (SquareSmallNum input w).st = finalWorld input w := by
  rw [SquareSmallNum_eq]
  split
  · rfl
  · split <;> rfl

theorem SquareSmallNum_result_fits_int (input : Int) (w w1 : TestWorld) (r : Int)
    (h : SquareSmallNum input w = .normal r w1) : -2 ^ 31 ≤ r ∧ r < 2 ^ 31 := by
  rw [SquareSmallNum_eq] at h
  split at h
  · injection h with hr _
    omega
  · split at h
    · cases h
    · injection h with hr _
      have h1 : 0 ≤ input := by omega
      have h2 : input ≤ 999 := by omega
      have h3 : input * input ≤ 999 * 999 := Int.mul_le_mul h2 h2 h1 (by omega)
      have h4 : 0 ≤ input * input := Int.mul_nonneg h1 h1
      constructor <;> omega

theorem main_runs_cleanup_three_times :
    main { state := { cout := [], helper := none }, calls := [] } =
      .normal 0
        { state :=
            { cout :=
                ["100 (normal return)    :", "\n"] ++ cleanupOutput (bodyLog 100) ++
                ["-1: (early return)     :", "\n"] ++ cleanupOutput (bodyLog (-1)) ++
                ["1000 (throws an error) :", "\n"] ++ cleanupOutput (bodyLog 1000) ++
                ["Got an error: ", "Input is too large!", "\n"],
              helper := none },
          calls := [cleanupCall, cleanupCall, cleanupCall] } := by
  simp [main, mainTry, SquareSmallNum_eq, finalWorld, coutShl]

/-- C3: for every input, `SquareSmallNum` is left with result `-1` (input < 0),
with the exception of `sqr` (input >= 1000) or with the square (otherwise), and
in each case the world it leaves is the one in which the clean up was called
exactly once in the world where the body was left, that is after every log
line of the executed statements was written: the record of calls grows by the
clean up alone, the clean up's output with the whole log is appended to
`cout`, and the helper is deleted. -/
theorem SquareSmallNum_cleanup_exactly_once (input : Int) (w : TestWorld) :
    SquareSmallNum input w =
      (if input < 0 then .normal (-1) (finalWorld input w)
       else if input ≥ 1000 then .thrown "Input is too large!" (finalWorld input w)
       else .normal (input * input) (finalWorld input w)) ∧
    invoke BindObj.call cleanupCall (bodyWorld input w) = .normal () (finalWorld input w) ∧
    (SquareSmallNum input w).st.calls = w.calls ++ [cleanupCall] ∧
    (SquareSmallNum input w).st.state.cout
      = w.state.cout ++ cleanupOutput (bodyLog input) ∧
    (SquareSmallNum input w).st.state.helper = none := by
  refine ⟨SquareSmallNum_eq input w, invoke_cleanup_bodyWorld input w, ?_, ?_, ?_⟩ <;>
    rw [SquareSmallNum_st] <;> rfl

/-- C7: a guard made by `DEFER(cmd)` keeps nothing of the state in which the
`DEFER` statement ran (the same guard results in any state), and when it fires
its action runs `cmd` on the state of the moment of firing, so every change
made in between is seen; in `SquareSmallNum` the log lines appended after the
`DEFER` statement are, in order, part of what the clean up writes to `cout`. -/
theorem DEFER_observes_state_at_firing {ε σ : Type} (cmd : σ → Outcome ε Unit σ) (s0 s1 : σ)
    (w : World (BindObj ε σ) σ) (input : Int) (tw : TestWorld) :
    DEFER cmd s0 = DEFER cmd s1 ∧
    ((DEFER cmd s0).dtorBody BindObj.call w).2
      = (cmd w.state).mapSt
          (fun s => { state := s, calls := w.calls ++ [{ f := lambdaRef cmd, bound := [] }] }) ∧
    bodyLog input <:+: (SquareSmallNum input tw).st.state.cout := by
  refine ⟨rfl, rfl, ?_⟩
  rw [SquareSmallNum_st]
  refine ⟨tw.state.cout ++ ["Performing final clean up", "\n", "Log follows: ", "\n"],
    ["\n", "All done...", "\n", "\n"], ?_⟩
  simp [finalWorld, cleanupOutput]

end Demo

section Ownership

variable {α ε σ : Type}

theorem filterMap_cons_toList {β γ : Type} (f : β → Option γ) (b : β) (l : List β) :
    (b :: l).filterMap f = (f b).toList ++ l.filterMap f := by
  rw [List.filterMap_cons]
  cases f b <;> rfl

theorem filterMap_set_sublist {β γ : Type} (f : β → Option γ) (y : β) (hy : f y = none)
    (l : List β) (i : Nat) : List.Sublist ((l.set i y).filterMap f) (l.filterMap f) := by
  induction l generalizing i with
  | nil => simp
  | cons b t ih =>
    cases i with
    | zero =>
      rw [List.set_cons_zero, filterMap_cons_toList, filterMap_cons_toList, hy]
      exact List.sublist_append_right _ _
    | succ k =>
      rw [List.set_cons_succ, filterMap_cons_toList, filterMap_cons_toList]
      exact List.Sublist.append_left (ih k) _

theorem filterMap_set_perm {β γ : Type} (f : β → Option γ) (y : β) (hy : f y = none)
    (l : List β) (i : Nat) (x : β) (hx : l[i]? = some x) :
    ((l.set i y).filterMap f ++ (f x).toList).Perm (l.filterMap f) := by
  induction l generalizing i with
  | nil => simp at hx
  | cons b t ih =>
    cases i with
    | zero =>
      have hb : b = x := by simpa using hx
      subst hb
      rw [List.set_cons_zero, filterMap_cons_toList, filterMap_cons_toList, hy]
      exact List.perm_append_comm
    | succ k =>
      have hk : t[k]? = some x := by simpa using hx
      rw [List.set_cons_succ, filterMap_cons_toList, filterMap_cons_toList, List.append_assoc]
      exact List.Perm.append_left _ (ih k hk)

theorem step_liveProcs (sem : α → σ → Outcome ε Unit σ) (m : Machine α σ) (op : Op α)
    (rest : List (Op α)) :
    ((Machine.step sem m op).liveProcs ++ constructed rest).Subperm
      (m.liveProcs ++ constructed (op :: rest)) := by
  have hsub : (m.liveProcs ++ constructed rest).Subperm
      (m.liveProcs ++ constructed (op :: rest)) := by
    apply List.Sublist.subperm
    apply List.Sublist.append_left
    unfold constructed
    rw [filterMap_cons_toList]
    exact List.sublist_append_right _ _
  unfold Machine.step
  split
  · exact hsub
  · split
    · rename_i f
      apply List.Perm.subperm
      simp only [Machine.liveProcs, constructed, List.filterMap_append, filterMap_cons_toList,
        List.filterMap_nil, List.append_nil, List.append_assoc, RunOnDeath.ctor, Option.bind]
      rfl
    · rename_i i
      split
      · rename_i src hsrc
        refine List.Subperm.trans ?_ hsub
        apply List.Perm.subperm
        apply List.Perm.append_right
        have := filterMap_set_perm (fun o : Option (RunOnDeath α) => o.bind RunOnDeath.proc)
          (some src.moveCtor.2) rfl m.objs i (some src) hsrc
        simpa [Machine.liveProcs, List.filterMap_append, filterMap_cons_toList,
          RunOnDeath.moveCtor] using this
      · exact hsub
    · rename_i i
      have hs : ∀ o : Option (RunOnDeath α),
          ((m.objs.set i none).filterMap (fun o => o.bind RunOnDeath.proc)
            ++ constructed rest).Subperm (m.liveProcs ++ constructed (.destroy i :: rest)) := by
        intro _
        refine List.Subperm.trans ?_ hsub
        apply List.Sublist.subperm
        apply List.Sublist.append_right
        exact filterMap_set_sublist _ none rfl m.objs i
      split
      · split
        · exact hs none
        · rename_i e _ _
          exact e.elim
        · exact hs none
      · exact hsub

theorem subperm_nodup {β : Type} {l1 l2 : List β} (h : l1.Subperm l2) (hn : l2.Nodup) :
    l1.Nodup := by
  obtain ⟨l, hp, hs⟩ := h
  exact (List.Perm.nodup_iff hp).mp (hn.sublist hs)

theorem run_liveProcs_nodup (sem : α → σ → Outcome ε Unit σ) (ops : List (Op α))
    (m : Machine α σ) (h : (m.liveProcs ++ constructed ops).Nodup) :
    (Machine.run sem m ops).liveProcs.Nodup := by
  induction ops generalizing m with
  | nil => simpa [Machine.run, constructed] using h
  | cons op rest ih =>
    have := ih (Machine.step sem m op) (subperm_nodup (step_liveProcs sem m op rest) h)
    simpa [Machine.run] using this

theorem run_liveProcs_subperm (sem : α → σ → Outcome ε Unit σ) (ops : List (Op α))
    (m : Machine α σ) :
    (Machine.run sem m ops).liveProcs.Subperm (m.liveProcs ++ constructed ops) := by
  induction ops generalizing m with
  | nil =>
    simp only [Machine.run, constructed, List.foldl_nil, List.filterMap_nil, List.append_nil]
    exact List.Subperm.refl _
  | cons op rest ih =>
    have h1 := ih (Machine.step sem m op)
    have h2 := step_liveProcs sem m op rest
    simpa [Machine.run] using h1.trans h2

theorem constructed_copies (k : Nat) (ops : List (Op α)) :
    (constructed (copies k ops)).Nodup ∧ ∀ c ∈ constructed (copies k ops), k ≤ c.1 := by
  induction ops generalizing k with
  | nil => simp [copies, constructed]
  | cons op rest ih =>
    obtain ⟨hn, hk⟩ := ih (k + 1)
    have hk1 : ∀ c ∈ constructed (copies (k + 1) rest), k ≤ c.1 :=
      fun c hc => Nat.le_of_succ_le (hk c hc)
    cases op with
    | construct f =>
      cases f with
      | none =>
        have he : constructed (copies k (Op.construct none :: rest))
            = constructed (copies (k + 1) rest) := by
          simp [copies, constructed]
        rw [he]
        exact ⟨hn, hk1⟩
      | some a =>
        have he : constructed (copies k (Op.construct (some a) :: rest))
            = (k, a) :: constructed (copies (k + 1) rest) := by
          simp [copies, constructed]
        rw [he]
        refine ⟨List.nodup_cons.mpr ⟨?_, hn⟩, ?_⟩
        · intro hmem
          have := hk (k, a) hmem
          simp at this
        · intro c hc
          rcases List.mem_cons.mp hc with h | h
          · rw [h]
          · exact hk1 c h
    | moveConstruct i =>
      have he : constructed (copies k (Op.moveConstruct i :: rest))
          = constructed (copies (k + 1) rest) := by
        simp [copies, constructed]
      rw [he]
      exact ⟨hn, hk1⟩
    | destroy i =>
      have he : constructed (copies k (Op.destroy i :: rest))
          = constructed (copies (k + 1) rest) := by
        simp [copies, constructed]
      rw [he]
      exact ⟨hn, hk1⟩

theorem forget_step (sem : α → σ → Outcome ε Unit σ) (m : Machine (Nat × α) σ) (k : Nat)
    (op : Op α) (rest : List (Op α)) :
    ∃ op1 rest1, copies k (op :: rest) = op1 :: rest1 ∧ rest1 = copies (k + 1) rest ∧
      (Machine.step (fun c => sem c.2) m op1).forget = Machine.step sem m.forget op := by
  cases op with
  | construct f =>
    refine ⟨_, _, rfl, rfl, ?_⟩
    simp only [Machine.step, Machine.forget]
    split
    · rfl
    · cases f <;> simp [RunOnDeath.ctor]
  | moveConstruct i =>
    refine ⟨_, _, rfl, rfl, ?_⟩
    simp only [Machine.step, Machine.forget, List.getElem?_map]
    split
    · rfl
    · cases h : m.objs[i]? with
      | none => simp
      | some o =>
        cases o with
        | none => simp
        | some src => simp [RunOnDeath.moveCtor, List.map_set]
  | destroy i =>
    refine ⟨_, _, rfl, rfl, ?_⟩
    simp only [Machine.step, Machine.forget, List.getElem?_map]
    split
    · rfl
    · cases h : m.objs[i]? with
      | none => simp
      | some o =>
        cases o with
        | none => simp
        | some g =>
          obtain ⟨p⟩ := g
          cases p with
          | none => simp [dtor_empty, List.map_set]
          | some c =>
            simp only [Option.map_some', dtor_armed, invoke]
            cases hs : sem c.2 m.world.state <;>
              simp [Outcome.mapSt, noexcept, List.map_set]

theorem forget_run (sem : α → σ → Outcome ε Unit σ) (ops : List (Op α)) (k : Nat)
    (m : Machine (Nat × α) σ) :
    (Machine.run (fun c => sem c.2) m (copies k ops)).forget
      = Machine.run sem m.forget ops := by
  induction ops generalizing k m with
  | nil => rfl
  | cons op rest ih =>
    obtain ⟨op1, rest1, h1, h2, h3⟩ := forget_step sem m k op rest
    rw [h1, h2]
    simp only [Machine.run, List.foldl_cons]
    have := ih (k + 1) (Machine.step (fun c => sem c.2) m op1)
    simp only [Machine.run] at this
    rw [this, h3]

/-- C10: in every state reached from the start by constructions,
move constructions and destructions, at most one live guard holds any given
action, an action being the copy of a callable that one constructor call put
into its guard; and counted by callable, the live guards holding a callable
are never more than the constructor calls that were given it: no sequence of
the operations duplicates an action. Telling the copies apart changes nothing
in what the program does. -/
theorem exclusive_ownership (sem : α → σ → Outcome ε Unit σ) (s : σ) (ops : List (Op α)) :
    (Machine.run (fun c => sem c.2) (Machine.init s) (copies 0 ops)).liveProcs.Nodup ∧
    (Machine.run sem (Machine.init s) ops).liveProcs.Subperm (constructed ops) ∧
    (Machine.run (fun c => sem c.2) (Machine.init s) (copies 0 ops)).forget
      = Machine.run sem (Machine.init s) ops := by
  refine ⟨?_, ?_, forget_run sem ops 0 (Machine.init s)⟩
  · apply run_liveProcs_nodup
    simpa [Machine.init, Machine.liveProcs] using (constructed_copies 0 ops).1
  · simpa [Machine.init, Machine.liveProcs] using
      run_liveProcs_subperm sem ops (Machine.init s)

end Ownership

end Defer
